import Mathlib

/-!
Verification of the cpack archive reader (`src/lib.rs` of `pmd_cpack`).

The underlying seekable/readable source is modelled as a byte function
together with a total length; reads are pure lookups, a failed
`read_exact` (reading past the end) is the io error case.  Machine
integers are `Nat` with explicit reduction modulo 2^32 where the Rust
code uses `u32` arithmetic (`as u32` casts and `u32` addition, which
wraps in release builds).  The poisoned state of the mutex protecting
the source is passed explicitly to the operations that lock it.
-/

/-- A seekable, readable byte source: a total length and the byte at
each position (positions `≥ length` are never observed by a successful
read).  Bytes are reduced modulo 256 on every read, reflecting `u8`. -/
structure ByteSource where
  length : Nat
  byte : Nat → Nat

/-- Build a source from an explicit list of bytes. -/
def ByteSource.fromList (l : List Nat) : ByteSource :=
  ⟨l.length, fun i => l.getD i 0⟩

/-- The bytes `[pos, pos+n)` of the source (unchecked window). -/
def readBytes (src : ByteSource) (pos n : Nat) : List Nat :=
  (List.range n).map (fun i => src.byte (pos + i) % 256)

/-- `read_exact` of `n` bytes at absolute position `pos`: fails (io
error) when the window runs past the end of the source. -/
def readExact (src : ByteSource) (pos n : Nat) : Option (List Nat) :=
  if pos + n ≤ src.length then some (readBytes src pos n) else none

/-- `u32::from_le_bytes`. -/
def fromLeBytes (l : List Nat) : Nat :=
  l.foldr (fun b acc => b + 256 * acc) 0

/-- `cpack_read_u32` (`src/lib.rs:49`): read 4 bytes little-endian. -/
def cpack_read_u32 (src : ByteSource) (pos : Nat) : Option Nat :=
  (readExact src pos 4).map fromLeBytes

/-- The `as u32` cast / wrapping `u32` arithmetic: reduction mod 2^32. -/
def u32Cast (n : Nat) : Nat := n % 4294967296

/-- `CPackError` (`src/lib.rs:11`). -/
inductive CPackError where
  | IOError
  | PoisonedLock
  | FourFirstByteNotZero (value : List Nat)
  | EndOfFileOutOfScope (file_id end_of_out_file end_of_source_file : Nat)
  | EndOfHeaderNotZero (start_end_of_header : Nat) (value : List Nat)
  | PartitionCreationError
deriving DecidableEq, Repr

/-- `FileIndex` (`src/lib.rs:56`); the field spelling follows the source. -/
structure FileIndex where
  file_offset : Nat
  file_lenght : Nat
deriving DecidableEq, Repr

/-- The entry loop of `CPack::parse` (`src/lib.rs:95-104`): for the
remaining `k` entries starting at `file_id = i` (entry `i` sits at
absolute offset `8 + 8*i`), read offset and length, fail when the
wrapped end exceeds `file_len`, else append. -/
def parseEntries (src : ByteSource) (file_len : Nat) : Nat → Nat → Except CPackError (List FileIndex)
  | _, 0 => Except.ok []
  | i, Nat.succ k =>
    match cpack_read_u32 src (8 + 8 * i), cpack_read_u32 src (8 + 8 * i + 4) with
    | some file_offset, some file_lenght =>
      if file_len < u32Cast (file_offset + file_lenght) then
        Except.error (CPackError.EndOfFileOutOfScope i (u32Cast (file_offset + file_lenght)) file_len)
      else
        match parseEntries src file_len (i + 1) k with
        | Except.ok rest => Except.ok (⟨file_offset, file_lenght⟩ :: rest)
        | Except.error e => Except.error e
    | _, _ => Except.error CPackError.IOError

/-- `CPack::parse` (`src/lib.rs:81-112`).  `poisoned` is the state of
the mutex guarding the source: `lock()` fails exactly when it is
poisoned.  `file_len` is the end-of-source seek position cast `as u32`. -/
def parse (poisoned : Bool) (src : ByteSource) : Except CPackError (List FileIndex) :=
  if poisoned then Except.error CPackError.PoisonedLock
  else
    match readExact src 0 4 with
    | none => Except.error CPackError.IOError
    | some first_four_bytes =>
      if first_four_bytes ≠ [0, 0, 0, 0] then
        Except.error (CPackError.FourFirstByteNotZero first_four_bytes)
      else
        match cpack_read_u32 src 4 with
        | none => Except.error CPackError.IOError
        | some number_of_file =>
          match parseEntries src (u32Cast src.length) 0 number_of_file with
          | Except.error e => Except.error e
          | Except.ok offset_table =>
            match readExact src (8 + 8 * number_of_file) 8 with
            | none => Except.error CPackError.IOError
            | some buffer =>
              if buffer ≠ [0, 0, 0, 0, 0, 0, 0, 0] then
                Except.error (CPackError.EndOfHeaderNotZero (16 + 8 * number_of_file) buffer)
              else Except.ok offset_table

/-- `CPack` (`src/lib.rs:65`): the offset table plus the shared source. -/
structure CPack where
  offset_table : List FileIndex
  file : ByteSource

/-- `CPack::new_from_file` (`src/lib.rs:72`): parse, and return the
archive only when every step of parsing succeeded. -/
def new_from_file (poisoned : Bool) (file : ByteSource) : Except CPackError CPack :=
  match parse poisoned file with
  | Except.ok offset_table => Except.ok ⟨offset_table, file⟩
  | Except.error e => Except.error e

/-- `CPack::len` (`src/lib.rs:115`). -/
def CPack.len (c : CPack) : Nat := c.offset_table.length

/-- `CPack::is_empty` (`src/lib.rs:120`). -/
def CPack.is_empty (c : CPack) : Bool := c.len = 0

/-- Modelled from the spec: the external `io_partition` crate's
`PartitionMutex` (not part of this repository) is, per §4.2, a bounded
read/seek view over `[offset, offset + length)` of the shared source. -/
structure PartitionMutex where
  file : ByteSource
  offset : Nat
  length : Nat

/-- Modelled from the spec: `PartitionMutex::new` builds the view over
the given window; it can fail only on an underlying io failure, which a
pure in-memory byte source never produces. -/
def PartitionMutex.new (file : ByteSource) (offset length : Nat) :
    Except CPackError PartitionMutex :=
  Except.ok ⟨file, offset, length⟩

/-- Modelled from the spec: reading an accessor to the end observes
exactly the bytes of its window (§4.2). -/
def PartitionMutex.readAll (p : PartitionMutex) : List Nat :=
  readBytes p.file p.offset p.length

/-- `CPack::get_file` (`src/lib.rs:125`): index into the offset table —
a panic on an out-of-range id, modelled as `none` — and build the
partition over that entry's window. -/
def get_file (c : CPack) (id : Nat) : Option (Except CPackError PartitionMutex) :=
  if h : id < c.offset_table.length then
    some (PartitionMutex.new c.file
      (c.offset_table.get ⟨id, h⟩).file_offset
      (c.offset_table.get ⟨id, h⟩).file_lenght)
  else none

/-- A reference parser following the spec's non-wrapping reading of
step 4 (§4.1, §9): the entry bound is the exact mathematical sum
`offset + length`, compared against the exact total source length. -/
def parsePromotedEntries (src : ByteSource) (total_len : Nat) : Nat → Nat → Except CPackError (List FileIndex)
  | _, 0 => Except.ok []
  | i, Nat.succ k =>
    match cpack_read_u32 src (8 + 8 * i), cpack_read_u32 src (8 + 8 * i + 4) with
    | some file_offset, some file_lenght =>
      if total_len < file_offset + file_lenght then
        Except.error (CPackError.EndOfFileOutOfScope i (file_offset + file_lenght) total_len)
      else
        match parsePromotedEntries src total_len (i + 1) k with
        | Except.ok rest => Except.ok (⟨file_offset, file_lenght⟩ :: rest)
        | Except.error e => Except.error e
    | _, _ => Except.error CPackError.IOError

/-- A reference parse following the spec's non-wrapping reading: as
`parse`, but bounds-checking with exact sums and the exact length. -/
def parsePromoted (poisoned : Bool) (src : ByteSource) : Except CPackError (List FileIndex) :=
  if poisoned then Except.error CPackError.PoisonedLock
  else
    match readExact src 0 4 with
    | none => Except.error CPackError.IOError
    | some first_four_bytes =>
      if first_four_bytes ≠ [0, 0, 0, 0] then
        Except.error (CPackError.FourFirstByteNotZero first_four_bytes)
      else
        match cpack_read_u32 src 4 with
        | none => Except.error CPackError.IOError
        | some number_of_file =>
          match parsePromotedEntries src src.length 0 number_of_file with
          | Except.error e => Except.error e
          | Except.ok offset_table =>
            match readExact src (8 + 8 * number_of_file) 8 with
            | none => Except.error CPackError.IOError
            | some buffer =>
              if buffer ≠ [0, 0, 0, 0, 0, 0, 0, 0] then
                Except.error (CPackError.EndOfHeaderNotZero (16 + 8 * number_of_file) buffer)
              else Except.ok offset_table

/-- The 42-byte example source of the spec's concrete scenario (§8) and
of the commented-out upstream test. -/
def srcHello : ByteSource :=
  ByteSource.fromList [0, 0, 0, 0, 2, 0, 0, 0, 32, 0, 0, 0, 5, 0, 0, 0,
    37, 0, 0, 0, 5, 0, 0, 0, 0, 0, 0, 0, 0, 0, 0, 0,
    104, 101, 108, 108, 111, 119, 111, 114, 108, 100]

/-- The archive parsed from `srcHello`. -/
def cpackHello : CPack := ⟨[⟨32, 5⟩, ⟨37, 5⟩], srcHello⟩

/-- A 24-byte source whose single entry has `offset = 2^32 - 1`,
`length = 1`: the wrapped end is `0 ≤ 24`, so parsing accepts it. -/
def srcWrapC1 : ByteSource :=
  ByteSource.fromList [0, 0, 0, 0, 1, 0, 0, 0, 255, 255, 255, 255, 1, 0, 0, 0,
    0, 0, 0, 0, 0, 0, 0, 0]

/-- The archive parsed from `srcWrapC1`. -/
def cpackWrapC1 : CPack := ⟨[⟨4294967295, 1⟩], srcWrapC1⟩

/-- A 24-byte source whose single entry has `offset = 2^32 - 2`,
`length = 3` (mathematical end `2^32 + 1`, wrapped end `1`). -/
def srcWrapC2 : ByteSource :=
  ByteSource.fromList [0, 0, 0, 0, 1, 0, 0, 0, 254, 255, 255, 255, 3, 0, 0, 0,
    0, 0, 0, 0, 0, 0, 0, 0]

/-- A 24-byte source whose single entry has `offset = 2^32 - 1`,
`length = 3` (mathematical end `2^32 + 2`, wrapped end `2`). -/
def srcWrapC5 : ByteSource :=
  ByteSource.fromList [0, 0, 0, 0, 1, 0, 0, 0, 255, 255, 255, 255, 3, 0, 0, 0,
    0, 0, 0, 0, 0, 0, 0, 0]

/-- A 24-byte source with two entries: entry 0 is in bounds
(`16 + 8 = 24`), entry 1 ends at `105 > 24`. -/
def srcTwoEntries : ByteSource :=
  ByteSource.fromList [0, 0, 0, 0, 2, 0, 0, 0, 16, 0, 0, 0, 8, 0, 0, 0,
    100, 0, 0, 0, 5, 0, 0, 0]

/-- A source of `2^32 + 16` bytes whose 16-byte header declares one
entry with `offset = 20`, `length = 5` (every byte past the header is
zero). -/
def srcBig : ByteSource :=
  ⟨4294967312, fun i => [0, 0, 0, 0, 1, 0, 0, 0, 20, 0, 0, 0, 5, 0, 0, 0].getD i 0⟩

/-- A 4-byte source whose magic is wrong. -/
def srcBadMagic : ByteSource := ByteSource.fromList [1, 2, 3, 4]

/-- A 16-byte source with a valid magic, zero entries, and a non-zero
header terminator. -/
def srcBadTerm : ByteSource :=
  ByteSource.fromList [0, 0, 0, 0, 0, 0, 0, 0, 1, 0, 0, 0, 0, 0, 0, 0]

/-- Every entry of a table produced by the entry loop passed the
wrapped bounds check. -/
theorem parseEntries_ok_mem (src : ByteSource) (fl : Nat) :
    ∀ (k i : Nat) (t : List FileIndex), parseEntries src fl i k = Except.ok t →
      ∀ e ∈ t, u32Cast (e.file_offset + e.file_lenght) ≤ fl := by
  intro k
  induction k with
  | zero =>
    intro i t h e he
    simp only [parseEntries, Except.ok.injEq] at h
    subst h
    cases he
  | succ k ih =>
    intro i t h e he
    rw [parseEntries] at h
    split at h
    next off len h1 h2 =>
      split at h
      · cases h
      next hb =>
        split at h
        next rest hrest =>
          cases h
          rcases List.mem_cons.mp he with rfl | he
          · exact Nat.le_of_not_lt hb
          · exact ih (i + 1) rest hrest e he
        next => cases h
    next => cases h

/-- Full inversion of a successful entry loop: the table has one entry
per sub-file id, each read in order from its slot of the offset table,
and each passed the wrapped bounds check. -/
theorem parseEntries_ok_full (src : ByteSource) (fl : Nat) :
    ∀ (k i : Nat) (t : List FileIndex), parseEntries src fl i k = Except.ok t →
      t.length = k ∧
      ∀ j < k, ∃ off len,
        cpack_read_u32 src (8 + 8 * (i + j)) = some off ∧
        cpack_read_u32 src (8 + 8 * (i + j) + 4) = some len ∧
        t.get? j = some ⟨off, len⟩ ∧
        u32Cast (off + len) ≤ fl := by
  intro k
  induction k with
  | zero =>
    intro i t h
    simp only [parseEntries, Except.ok.injEq] at h
    subst h
    exact ⟨rfl, fun j hj => absurd hj (Nat.not_lt_zero j)⟩
  | succ k ih =>
    intro i t h
    rw [parseEntries] at h
    split at h
    next off len h1 h2 =>
      split at h
      · cases h
      next hb =>
        split at h
        next rest hrest =>
          cases h
          obtain ⟨hlen, hall⟩ := ih (i + 1) rest hrest
          refine ⟨by simp [hlen], fun j hj => ?_⟩
          cases j with
          | zero =>
            refine ⟨off, len, ?_, ?_, rfl, Nat.le_of_not_lt hb⟩
            · rw [Nat.add_zero]; exact h1
            · rw [Nat.add_zero]; exact h2
          | succ j =>
            obtain ⟨o, l, ho, hl, hg, hle⟩ := hall j (by omega)
            have hi : i + 1 + j = i + (j + 1) := by omega
            rw [hi] at ho hl
            exact ⟨o, l, ho, hl, hg, hle⟩
        next => cases h
    next => cases h

/-- If every one of the next `k` entries is readable and passes the
wrapped bounds check, the entry loop succeeds with a table of length
`k`. -/
theorem parseEntries_all_pass (src : ByteSource) (fl : Nat) :
    ∀ (k i : Nat),
      (∀ j < k, ∃ off len,
        cpack_read_u32 src (8 + 8 * (i + j)) = some off ∧
        cpack_read_u32 src (8 + 8 * (i + j) + 4) = some len ∧
        u32Cast (off + len) ≤ fl) →
      ∃ t, parseEntries src fl i k = Except.ok t ∧ t.length = k := by
  intro k
  induction k with
  | zero => exact fun i _ => ⟨[], rfl, rfl⟩
  | succ k ih =>
    intro i hp
    obtain ⟨off, len, h1, h2, hle⟩ := hp 0 (Nat.succ_pos k)
    simp only [Nat.add_zero] at h1 h2
    obtain ⟨rest, hrest, hlen⟩ := ih (i + 1) (fun j hj => by
      obtain ⟨o, l, ho, hl, hle'⟩ := hp (j + 1) (by omega)
      have hi : i + (j + 1) = i + 1 + j := by omega
      rw [hi] at ho hl
      exact ⟨o, l, ho, hl, hle'⟩)
    refine ⟨⟨off, len⟩ :: rest, ?_, by simp [hlen]⟩
    rw [parseEntries]
    simp only [h1, h2]
    rw [if_neg (Nat.not_lt.mpr hle), hrest]

/-- If the first `d` entries pass the wrapped bounds check and entry
`i + d` is readable but fails it, the entry loop (with more than `d`
entries to go) fails with exactly that entry's id, wrapped end and
limit. -/
theorem parseEntries_error_first (src : ByteSource) (fl : Nat) :
    ∀ (d i k off len : Nat),
      (∀ j < d, ∃ o l,
        cpack_read_u32 src (8 + 8 * (i + j)) = some o ∧
        cpack_read_u32 src (8 + 8 * (i + j) + 4) = some l ∧
        u32Cast (o + l) ≤ fl) →
      cpack_read_u32 src (8 + 8 * (i + d)) = some off →
      cpack_read_u32 src (8 + 8 * (i + d) + 4) = some len →
      fl < u32Cast (off + len) →
      d < k →
      parseEntries src fl i k = Except.error
        (CPackError.EndOfFileOutOfScope (i + d) (u32Cast (off + len)) fl) := by
  intro d
  induction d with
  | zero =>
    intro i k off len _ h1 h2 hlt hk
    cases k with
    | zero => omega
    | succ k =>
      simp only [Nat.add_zero] at h1 h2
      rw [parseEntries]
      simp only [h1, h2, if_pos hlt, Nat.add_zero]
  | succ d ih =>
    intro i k off len hp h1 h2 hlt hk
    cases k with
    | zero => omega
    | succ k =>
      obtain ⟨o, l, ho, hl, hle⟩ := hp 0 (Nat.succ_pos d)
      simp only [Nat.add_zero] at ho hl
      have hi : i + 1 + d = i + (d + 1) := by omega
      have hrec := ih (i + 1) k off len (fun j hj => by
        obtain ⟨o', l', ho', hl', hle'⟩ := hp (j + 1) (by omega)
        have hj' : i + (j + 1) = i + 1 + j := by omega
        rw [hj'] at ho' hl'
        exact ⟨o', l', ho', hl', hle'⟩)
        (by rw [hi]; exact h1) (by rw [hi]; exact h2) hlt (by omega)
      rw [parseEntries]
      simp only [ho, hl, if_neg (Nat.not_lt.mpr hle), hrec, hi]

/-- Inversion of a successful `parse`: the lock was not poisoned, the
magic read succeeded and was all zero, the declared number of entries
was read, the entry loop produced exactly the returned table, and the
8-byte terminator read succeeded and was all zero. -/
theorem parse_ok_inv (poisoned : Bool) (src : ByteSource) (t : List FileIndex)
    (h : parse poisoned src = Except.ok t) :
    poisoned = false ∧
    readExact src 0 4 = some [0, 0, 0, 0] ∧
    ∃ n, cpack_read_u32 src 4 = some n ∧
      parseEntries src (u32Cast src.length) 0 n = Except.ok t ∧
      readExact src (8 + 8 * n) 8 = some [0, 0, 0, 0, 0, 0, 0, 0] := by
  cases poisoned with
  | true => exact absurd h (by simp [parse])
  | false =>
    unfold parse at h
    split at h
    next hc => exact absurd hc (by simp)
    split at h
    · cases h
    next ffb hffb =>
      split at h
      · cases h
      next hne =>
        have hz : ffb = [0, 0, 0, 0] := not_not.mp hne
        subst hz
        split at h
        · cases h
        next n hn =>
          split at h
          next e he => cases h
          next t0 ht0 =>
            split at h
            · cases h
            next buf hbuf =>
              split at h
              · cases h
              next hbz =>
                have hb : buf = [0, 0, 0, 0, 0, 0, 0, 0] := not_not.mp hbz
                subst hb
                cases h
                exact ⟨rfl, hffb, n, hn, ht0, hbuf⟩

/-- Inversion of a successful `new_from_file`: the archive holds the
given source and a table produced by a successful `parse`. -/
theorem new_from_file_ok_inv (poisoned : Bool) (src : ByteSource) (a : CPack)
    (h : new_from_file poisoned src = Except.ok a) :
    a.file = src ∧ parse poisoned src = Except.ok a.offset_table := by
  unfold new_from_file at h
  split at h
  next t ht =>
    cases h
    exact ⟨rfl, ht⟩
  next => cases h

/-- C9: if the lock guarding the source is poisoned when `parse` tries
to acquire it, `new_from_file` fails with the distinct `PoisonedLock`
error kind (it returns, rather than panicking or blocking). -/
theorem new_from_file_poisoned_lock (src : ByteSource) :
    new_from_file true src = Except.error CPackError.PoisonedLock := rfl

theorem new_from_file_poisoned_lock_witness :
    new_from_file true (ByteSource.fromList []) = Except.error CPackError.PoisonedLock :=
  new_from_file_poisoned_lock (ByteSource.fromList [])

/-- C3: on the concrete 42-byte source of the spec's scenario,
construction succeeds, `len` is 2, and the two sub-files are accessors
over the windows `(32, 5)` and `(37, 5)` reading `"hello"` and
`"world"`. -/
theorem concrete_scenario_hello_world :
    new_from_file false srcHello = Except.ok cpackHello ∧
    cpackHello.len = 2 ∧
    get_file cpackHello 0 = some (Except.ok ⟨srcHello, 32, 5⟩) ∧
    PartitionMutex.readAll ⟨srcHello, 32, 5⟩ = [104, 101, 108, 108, 111] ∧
    get_file cpackHello 1 = some (Except.ok ⟨srcHello, 37, 5⟩) ∧
    PartitionMutex.readAll ⟨srcHello, 37, 5⟩ = [119, 111, 114, 108, 100] :=
  ⟨rfl, rfl, rfl, rfl, rfl, rfl⟩

/-- C4: a source of at least 4 bytes whose first 4 bytes are not all
zero fails construction with the bad-magic error kind carrying exactly
the 4 observed bytes, regardless of the remaining content. -/
theorem parse_bad_magic (src : ByteSource) (b : List Nat)
    (hread : readExact src 0 4 = some b) (hb : b ≠ [0, 0, 0, 0]) :
    new_from_file false src = Except.error (CPackError.FourFirstByteNotZero b) := by
  simp [new_from_file, parse, hread, hb]

theorem parse_bad_magic_witness :
    new_from_file false srcBadMagic =
      Except.error (CPackError.FourFirstByteNotZero [1, 2, 3, 4]) :=
  parse_bad_magic srcBadMagic [1, 2, 3, 4] rfl (by decide)

/-- C6: a source with a valid magic, `n` bounds-valid entries and a
readable but non-zero 8-byte header terminator fails construction with
the bad-terminator error kind carrying the current stream position
(`16 + 8 * n`, the position after the 8-byte read) and the 8 observed
bytes. -/
theorem parse_bad_terminator (src : ByteSource) (n : Nat) (buf : List Nat)
    (hmagic : readExact src 0 4 = some [0, 0, 0, 0])
    (hcount : cpack_read_u32 src 4 = some n)
    (hpass : ∀ j < n, ∃ off len,
      cpack_read_u32 src (8 + 8 * j) = some off ∧
      cpack_read_u32 src (8 + 8 * j + 4) = some len ∧
      u32Cast (off + len) ≤ u32Cast src.length)
    (hterm : readExact src (8 + 8 * n) 8 = some buf)
    (hbuf : buf ≠ [0, 0, 0, 0, 0, 0, 0, 0]) :
    new_from_file false src =
      Except.error (CPackError.EndOfHeaderNotZero (16 + 8 * n) buf) := by
  obtain ⟨t, ht, -⟩ := parseEntries_all_pass src (u32Cast src.length) n 0
    (fun j hj => by
      obtain ⟨o, l, ho, hl, hle⟩ := hpass j hj
      exact ⟨o, l, by rw [Nat.zero_add]; exact ho,
        by rw [Nat.zero_add]; exact hl, hle⟩)
  simp [new_from_file, parse, hmagic, hcount, ht, hterm, hbuf]

theorem parse_bad_terminator_witness :
    new_from_file false srcBadTerm =
      Except.error (CPackError.EndOfHeaderNotZero 16 [1, 0, 0, 0, 0, 0, 0, 0]) :=
  parse_bad_terminator srcBadTerm 0 [1, 0, 0, 0, 0, 0, 0, 0] rfl rfl
    (fun j hj => absurd hj (Nat.not_lt_zero j)) rfl (by decide)

/-- Shared helper: when the magic is valid, the count was read, the
first `i` entries pass the wrapped bounds check and entry `i` (with
`i < n`) is readable but fails it, `parse` fails with exactly
`EndOfFileOutOfScope (i, wrapped end, truncated length)`. -/
theorem parse_first_bad_entry (src : ByteSource) (n i off len : Nat)
    (hmagic : readExact src 0 4 = some [0, 0, 0, 0])
    (hcount : cpack_read_u32 src 4 = some n)
    (hpass : ∀ j < i, ∃ o l,
      cpack_read_u32 src (8 + 8 * j) = some o ∧
      cpack_read_u32 src (8 + 8 * j + 4) = some l ∧
      u32Cast (o + l) ≤ u32Cast src.length)
    (h1 : cpack_read_u32 src (8 + 8 * i) = some off)
    (h2 : cpack_read_u32 src (8 + 8 * i + 4) = some len)
    (hlt : u32Cast src.length < u32Cast (off + len))
    (hin : i < n) :
    parse false src = Except.error
      (CPackError.EndOfFileOutOfScope i (u32Cast (off + len)) (u32Cast src.length)) := by
  have herr := parseEntries_error_first src (u32Cast src.length) i 0 n off len
    (fun j hj => by
      obtain ⟨o, l, ho, hl, hle⟩ := hpass j hj
      exact ⟨o, l, by rw [Nat.zero_add]; exact ho,
        by rw [Nat.zero_add]; exact hl, hle⟩)
    (by rw [Nat.zero_add]; exact h1) (by rw [Nat.zero_add]; exact h2) hlt hin
  rw [Nat.zero_add] at herr
  simp [parse, hmagic, hcount, herr]

/-- C5 (amended): when, scanning the offset table in order of file id,
the first entry whose wrapped 32-bit end `(offset + length) mod 2^32`
exceeds the truncated source length is entry `i`, construction fails
with the out-of-bounds kind carrying exactly
`(i, wrapped end, truncated source length)`, and the `i` entries before
it had been read in order and had passed the same check. -/
theorem parse_entry_out_of_bounds (src : ByteSource) (n i off len : Nat)
    (hmagic : readExact src 0 4 = some [0, 0, 0, 0])
    (hcount : cpack_read_u32 src 4 = some n)
    (hpass : ∀ j < i, ∃ o l,
      cpack_read_u32 src (8 + 8 * j) = some o ∧
      cpack_read_u32 src (8 + 8 * j + 4) = some l ∧
      u32Cast (o + l) ≤ u32Cast src.length)
    (h1 : cpack_read_u32 src (8 + 8 * i) = some off)
    (h2 : cpack_read_u32 src (8 + 8 * i + 4) = some len)
    (hlt : u32Cast src.length < u32Cast (off + len))
    (hin : i < n) :
    parse false src = Except.error
      (CPackError.EndOfFileOutOfScope i (u32Cast (off + len)) (u32Cast src.length)) ∧
    ∃ t, parseEntries src (u32Cast src.length) 0 i = Except.ok t ∧ t.length = i := by
  refine ⟨parse_first_bad_entry src n i off len hmagic hcount hpass h1 h2 hlt hin, ?_⟩
  exact parseEntries_all_pass src (u32Cast src.length) i 0
    (fun j hj => by
      obtain ⟨o, l, ho, hl, hle⟩ := hpass j hj
      exact ⟨o, l, by rw [Nat.zero_add]; exact ho,
        by rw [Nat.zero_add]; exact hl, hle⟩)

theorem parse_entry_out_of_bounds_witness :
    parse false srcTwoEntries =
      Except.error (CPackError.EndOfFileOutOfScope 1 105 24) ∧
    ∃ t, parseEntries srcTwoEntries 24 0 1 = Except.ok t ∧ t.length = 1 :=
  parse_entry_out_of_bounds srcTwoEntries 2 1 100 5 rfl rfl
    (fun j hj => by
      have hj0 : j = 0 := by omega
      subst hj0
      exact ⟨16, 8, rfl, rfl, by decide⟩)
    rfl rfl (by decide) (by decide)

/-- C5 (counterexample to the claim as stated): `srcWrapC5` has a
single entry whose mathematical end `4294967295 + 3` exceeds the total
source length `24`, yet construction succeeds instead of failing with
the out-of-bounds kind (the wrapped end `2` passes the check). -/
theorem out_of_bounds_detection_counterexample :
    cpack_read_u32 srcWrapC5 8 = some 4294967295 ∧
    cpack_read_u32 srcWrapC5 12 = some 3 ∧
    srcWrapC5.length < 4294967295 + 3 ∧
    new_from_file false srcWrapC5 = Except.ok ⟨[⟨4294967295, 3⟩], srcWrapC5⟩ :=
  ⟨rfl, rfl, by decide, rfl⟩

/-- C10: for a source of length at least `2^32`, the bounds check of
step 4 compares the wrapped entry end against the end-of-source seek
position cast to `u32`, i.e. the source length reduced modulo `2^32`
(strictly smaller than the true length): the produced error carries the
reduced length. -/
theorem parse_compares_truncated_length (src : ByteSource) (n i off len : Nat)
    (hlen : 4294967296 ≤ src.length)
    (hmagic : readExact src 0 4 = some [0, 0, 0, 0])
    (hcount : cpack_read_u32 src 4 = some n)
    (hpass : ∀ j < i, ∃ o l,
      cpack_read_u32 src (8 + 8 * j) = some o ∧
      cpack_read_u32 src (8 + 8 * j + 4) = some l ∧
      u32Cast (o + l) ≤ u32Cast src.length)
    (h1 : cpack_read_u32 src (8 + 8 * i) = some off)
    (h2 : cpack_read_u32 src (8 + 8 * i + 4) = some len)
    (hlt : u32Cast src.length < u32Cast (off + len))
    (hin : i < n) :
    parse false src = Except.error
      (CPackError.EndOfFileOutOfScope i (u32Cast (off + len)) (u32Cast src.length)) ∧
    u32Cast src.length < src.length := by
  refine ⟨parse_first_bad_entry src n i off len hmagic hcount hpass h1 h2 hlt hin, ?_⟩
  exact lt_of_lt_of_le (Nat.mod_lt _ (by omega)) hlen

theorem parse_compares_truncated_length_witness :
    parse false srcBig = Except.error (CPackError.EndOfFileOutOfScope 0 25 16) ∧
    u32Cast srcBig.length < srcBig.length :=
  parse_compares_truncated_length srcBig 1 0 20 5 (by decide) rfl rfl
    (fun j hj => absurd hj (Nat.not_lt_zero j)) rfl rfl (by decide) (by decide)

/-- C1 (counterexample to the claim as stated): `srcWrapC1` parses
successfully, but its single entry has
`file_offset + file_lenght = 2^32 > 24`, violating the mathematical
bounds invariant against the total source length. -/
theorem bounds_invariant_counterexample :
    new_from_file false srcWrapC1 = Except.ok cpackWrapC1 ∧
    FileIndex.mk 4294967295 1 ∈ cpackWrapC1.offset_table ∧
    srcWrapC1.length < 4294967295 + 1 :=
  ⟨rfl, by decide, by decide⟩

/-- C1 (amended): every entry of an archive successfully constructed by
`new_from_file` satisfies the bounds invariant as the code checks it:
`(file_offset + file_lenght) mod 2^32 ≤ total source length mod 2^32`. -/
theorem bounds_invariant_wrapped (poisoned : Bool) (src : ByteSource) (a : CPack)
    (h : new_from_file poisoned src = Except.ok a) :
    ∀ e ∈ a.offset_table,
      u32Cast (e.file_offset + e.file_lenght) ≤ u32Cast src.length := by
  obtain ⟨-, hparse⟩ := new_from_file_ok_inv poisoned src a h
  obtain ⟨-, -, n, -, hent, -⟩ := parse_ok_inv poisoned src a.offset_table hparse
  exact parseEntries_ok_mem src (u32Cast src.length) n 0 a.offset_table hent

theorem bounds_invariant_wrapped_witness :
    new_from_file false srcHello = Except.ok cpackHello ∧
    u32Cast (32 + 5) ≤ u32Cast srcHello.length :=
  ⟨rfl, bounds_invariant_wrapped false srcHello cpackHello rfl ⟨32, 5⟩ (by decide)⟩

/-- C2 (counterexample to the claim as stated): `srcWrapC2`'s entry has
offset `4294967294` and length `3`, whose mathematical sum exceeds
`2^32 - 1`; `parse` neither reports an error (it succeeds) nor compares
the exact sum against the total source length (the exact comparison,
`parsePromoted`, rejects this very input). -/
theorem overflow_never_promoted :
    cpack_read_u32 srcWrapC2 8 = some 4294967294 ∧
    cpack_read_u32 srcWrapC2 12 = some 3 ∧
    4294967295 < 4294967294 + 3 ∧
    parse false srcWrapC2 = Except.ok [⟨4294967294, 3⟩] ∧
    parsePromoted false srcWrapC2 =
      Except.error (CPackError.EndOfFileOutOfScope 0 4294967297 24) :=
  ⟨rfl, rfl, by decide, rfl, rfl⟩

/-- C2 (amended): the step-4 addition wraps: for an entry read as
`(off, len)`, the loop rejects it (with the wrapped end in the error)
exactly when `(off + len) mod 2^32` exceeds the limit, and otherwise
appends it and continues — entries whose mathematical sum overflows are
silently accepted whenever the wrapped sum is within bounds. -/
theorem entry_check_wraps (src : ByteSource) (fl i k off len : Nat)
    (h1 : cpack_read_u32 src (8 + 8 * i) = some off)
    (h2 : cpack_read_u32 src (8 + 8 * i + 4) = some len) :
    (fl < u32Cast (off + len) →
      parseEntries src fl i (k + 1) =
        Except.error (CPackError.EndOfFileOutOfScope i (u32Cast (off + len)) fl)) ∧
    (u32Cast (off + len) ≤ fl →
      ∀ t, parseEntries src fl (i + 1) k = Except.ok t →
        parseEntries src fl i (k + 1) = Except.ok (⟨off, len⟩ :: t)) := by
  constructor
  · intro hlt
    rw [parseEntries]
    simp only [h1, h2, if_pos hlt]
  · intro hle t ht
    rw [parseEntries]
    simp only [h1, h2, if_neg (Nat.not_lt.mpr hle), ht]

theorem entry_check_wraps_witness :
    parseEntries srcWrapC2 24 0 1 = Except.ok [⟨4294967294, 3⟩] :=
  (entry_check_wraps srcWrapC2 24 0 0 4294967294 3 rfl rfl).2 (by decide) [] rfl

/-- C7: `new_from_file` never returns a partial or degraded archive:
whenever it returns an archive at all, the lock was acquired, the magic
was valid, the full declared number of entries was read in order and
each passed the bounds check, and the terminator was valid — otherwise
the caller gets an error (the return type admits no third outcome). -/
theorem new_from_file_fully_valid (poisoned : Bool) (src : ByteSource) (a : CPack)
    (h : new_from_file poisoned src = Except.ok a) :
    poisoned = false ∧
    a.file = src ∧
    readExact src 0 4 = some [0, 0, 0, 0] ∧
    ∃ n, cpack_read_u32 src 4 = some n ∧
      a.offset_table.length = n ∧
      (∀ j < n, ∃ off len,
        cpack_read_u32 src (8 + 8 * j) = some off ∧
        cpack_read_u32 src (8 + 8 * j + 4) = some len ∧
        a.offset_table.get? j = some ⟨off, len⟩ ∧
        u32Cast (off + len) ≤ u32Cast src.length) ∧
      readExact src (8 + 8 * n) 8 = some [0, 0, 0, 0, 0, 0, 0, 0] := by
  obtain ⟨hfile, hparse⟩ := new_from_file_ok_inv poisoned src a h
  obtain ⟨hpois, hmagic, n, hn, hent, hterm⟩ := parse_ok_inv poisoned src a.offset_table hparse
  obtain ⟨hlen, hall⟩ := parseEntries_ok_full src (u32Cast src.length) n 0 a.offset_table hent
  refine ⟨hpois, hfile, hmagic, n, hn, hlen, fun j hj => ?_, hterm⟩
  obtain ⟨off, len, ho, hl, hg, hle⟩ := hall j hj
  rw [Nat.zero_add] at ho hl
  exact ⟨off, len, ho, hl, hg, hle⟩

theorem new_from_file_fully_valid_witness :
    false = false ∧
    cpackHello.file = srcHello ∧
    readExact srcHello 0 4 = some [0, 0, 0, 0] ∧
    ∃ n, cpack_read_u32 srcHello 4 = some n ∧
      cpackHello.offset_table.length = n ∧
      (∀ j < n, ∃ off len,
        cpack_read_u32 srcHello (8 + 8 * j) = some off ∧
        cpack_read_u32 srcHello (8 + 8 * j + 4) = some len ∧
        cpackHello.offset_table.get? j = some ⟨off, len⟩ ∧
        u32Cast (off + len) ≤ u32Cast srcHello.length) ∧
      readExact srcHello (8 + 8 * n) 8 = some [0, 0, 0, 0, 0, 0, 0, 0] :=
  new_from_file_fully_valid false srcHello cpackHello rfl

/-- C8: an out-of-range id passed to `get_file` is a caller contract
violation that panics (modelled as `none`), never a returned `Error`
value; for every id below `len()` the indexing into the offset table
succeeds and yields the accessor over that entry's window. -/
theorem get_file_index_contract (c : CPack) (id : Nat) :
    (c.offset_table.length ≤ id → get_file c id = none) ∧
    ∀ h : id < c.offset_table.length,
      get_file c id = some (Except.ok
        ⟨c.file, (c.offset_table.get ⟨id, h⟩).file_offset,
          (c.offset_table.get ⟨id, h⟩).file_lenght⟩) := by
  constructor
  · intro hge
    unfold get_file
    rw [dif_neg (Nat.not_lt.mpr hge)]
  · intro h
    unfold get_file
    rw [dif_pos h]
    rfl

theorem get_file_index_contract_witness :
    get_file cpackHello 2 = none ∧
    get_file cpackHello 0 = some (Except.ok ⟨srcHello, 32, 5⟩) :=
  ⟨(get_file_index_contract cpackHello 2).1 (by decide),
    (get_file_index_contract cpackHello 0).2 (by decide)⟩
